import Mathlib

/-!
Verification of the breadability content-extraction engine
(src/breadability/readable.py) against its specification.

Modelling conventions:

* An lxml element is modelled by the inductive type Elem: a numeric
  identity (standing for Python object identity), a tag, an ordered
  attribute list, the text directly inside the element, the tail text
  that follows the element, and the list of child elements.  The helper
  functions mirror the lxml API used by the source: text_content,
  getparent, drop_tree with its tail-joining rule, append as a move
  operation, iter as a preorder traversal.
* Mutable tree state is modelled functionally.  During one extraction
  the live objects form a forest: the head tree is the document, and
  every subtree detached by drop_tree or by an unlink stays alive as a
  further root, because the Python objects persist and the winning
  candidate may live inside such a detached subtree.
* Python floats are modelled as exact fractions (the Frac type below,
  an unnormalized Int pair with positive denominator).  Every constant
  involved (0.2, 0.25, 0.33, 0.5, base / 2) is modelled by the exact
  rational the source literal denotes; no claim in scope hinges on
  binary floating-point rounding, and all concrete inputs used in the
  theorems keep the comparisons far from ties.
* The modules breadability.scoring, breadability.document and
  breadability.utils are not part of src/.  The functions imported from
  breadability.scoring (score_candidates, get_link_density,
  get_class_weight, is_unlikely_node) are therefore modelled from the
  specification text; each such definition carries a doc comment
  starting with: Modelled from the spec.  HTML parsing and the lxml
  Cleaner are external collaborators, so the model takes an already
  parsed and cleaned DOM (or none, standing for a parser ValueError)
  as input.
-/

set_option maxRecDepth 100000

namespace Breadability

/-! ## Character and string helpers (kernel-reducible replacements) -/

/-- ASCII lowercase of one character; the regex matching in the spec is
case-insensitive, which we model by lowercasing both sides. -/
def lowerChar (c : Char) : Char :=
  if 'A' ≤ c ∧ c ≤ 'Z' then Char.ofNat (c.toNat + 32) else c

/-- Whitespace test matching the characters Python str.strip removes in
the inputs we consider. -/
def spaceChar (c : Char) : Bool :=
  c = ' ' || c = '\t' || c = '\n' || c = '\r'

/-- Strip whitespace from both ends, modelling Python str.strip. -/
def trimL (l : List Char) : List Char :=
  ((l.dropWhile spaceChar).reverse.dropWhile spaceChar).reverse

/-- Does the pattern occur at the head of the character list. -/
def listStartsWith : List Char → List Char → Bool
  | [], _ => true
  | _ :: _, [] => false
  | p :: ps, c :: cs => p = c && listStartsWith ps cs

/-- Does the pattern occur as a contiguous sublist. -/
def listContainsSub (pat : List Char) : List Char → Bool
  | [] => listStartsWith pat []
  | c :: cs => listStartsWith pat (c :: cs) || listContainsSub pat cs

/-- Substring containment on strings, modelling the Python operator
pat in s. -/
def containsSub (s pat : String) : Bool := listContainsSub pat.toList s.toList

/-- Split on a separator character, modelling Python str.split with a
one-character separator (so the empty string yields one empty field). -/
def splitChar (sep : Char) : List Char → List (List Char)
  | [] => [[]]
  | c :: cs =>
    let r := splitChar sep cs
    if c = sep then [] :: r
    else match r with
      | [] => [[c]]
      | w :: ws => (c :: w) :: ws

/-! ## Exact fractions standing for Python floats -/

/-- Unnormalized fraction num / den over Int.  All values built by the
model keep den positive, so the cross-multiplication comparisons below
agree with the rational order.  This models Python float arithmetic
exactly for the dyadic and small-denominator constants the source
uses. -/
structure Frac where
  num : Int
  den : Int
deriving DecidableEq, Repr

/-- Embed an integer. -/
def Frac.ofInt (n : Int) : Frac := ⟨n, 1⟩

/-- Fraction addition without normalization. -/
def Frac.add (a b : Frac) : Frac := ⟨a.num * b.den + b.num * a.den, a.den * b.den⟩

/-- Fraction subtraction without normalization. -/
def Frac.sub (a b : Frac) : Frac := ⟨a.num * b.den - b.num * a.den, a.den * b.den⟩

/-- Fraction multiplication without normalization. -/
def Frac.mul (a b : Frac) : Frac := ⟨a.num * b.num, a.den * b.den⟩

/-- Strict order by cross multiplication (valid for positive denominators). -/
def Frac.blt (a b : Frac) : Bool := a.num * b.den < b.num * a.den

/-- Reflexive order by cross multiplication. -/
def Frac.ble (a b : Frac) : Bool := a.num * b.den ≤ b.num * a.den

/-- Equality test by cross multiplication. -/
def Frac.beq (a b : Frac) : Bool := a.num * b.den = b.num * a.den

/-! ## The DOM model -/

/-- A DOM element: object identity, tag, ordered attribute list, text
directly inside the element, tail text following it, children. -/
inductive Elem : Type where
  | mk (eid : Nat) (tag : String) (attrs : List (String × String))
       (text : String) (tail : String) (children : List Elem)
deriving Repr

def Elem.eid : Elem → Nat
  | .mk i _ _ _ _ _ => i

def Elem.tag : Elem → String
  | .mk _ t _ _ _ _ => t

def Elem.attrs : Elem → List (String × String)
  | .mk _ _ a _ _ _ => a

def Elem.text : Elem → String
  | .mk _ _ _ tx _ _ => tx

def Elem.tail : Elem → String
  | .mk _ _ _ _ tl _ => tl

def Elem.children : Elem → List Elem
  | .mk _ _ _ _ _ cs => cs

/-- Replace the tag, keeping everything else. -/
def Elem.withTag (t : String) : Elem → Elem
  | .mk i _ a tx tl cs => .mk i t a tx tl cs

/-- Append text to the tail, as drop_tree does on the previous sibling. -/
def Elem.addTail (s : String) : Elem → Elem
  | .mk i tg a tx tl cs => .mk i tg a tx (tl ++ s) cs

/-- Append a child at the end, modelling successful lxml append. -/
def Elem.pushChild (c : Elem) : Elem → Elem
  | .mk i tg a tx tl cs => .mk i tg a tx tl (cs ++ [c])

/-- First value of an attribute key, modelling lxml get. -/
def Elem.getAttr (e : Elem) (k : String) : Option String :=
  ((e.attrs).find? (fun kv => kv.1 == k)).map (fun kv => kv.2)

/-- Replace the first binding of a key, else append, modelling lxml set. -/
def setAttrList (k v : String) : List (String × String) → List (String × String)
  | [] => [(k, v)]
  | kv :: r => if kv.1 == k then (k, v) :: r else kv :: setAttrList k v r

/-- Set an attribute on an element. -/
def Elem.setA (e : Elem) (k v : String) : Elem :=
  match e with
  | .mk i tg a tx tl cs => .mk i tg (setAttrList k v a) tx tl cs

/-- Python truthiness of an optional attribute value: present and
nonempty. -/
def truthyOpt : Option String → Bool
  | none => false
  | some s => s != ""

mutual
/-- Concatenated text of the subtree, modelling lxml text_content:
the own text, then for each child its text content followed by its
tail. -/
def textContent : Elem → String
  | .mk _ _ _ tx _ cs => tx ++ textContentL cs
def textContentL : List Elem → String
  | [] => ""
  | c :: cs => textContent c ++ c.tail ++ textContentL cs
end

mutual
/-- All elements of the subtree in document order (root first),
modelling lxml iter. -/
def preorder : Elem → List Elem
  | .mk i tg a tx tl cs => .mk i tg a tx tl cs :: preorderL cs
def preorderL : List Elem → List Elem
  | [] => []
  | c :: cs => preorder c ++ preorderL cs
end

/-- Proper descendants in document order, modelling the xpath .//
axis used by findall. -/
def descendants (e : Elem) : List Elem := preorderL e.children

/-- Number of proper descendants with the given tag, modelling
len(node.findall with a tag)). -/
def countDescTag (e : Elem) (t : String) : Nat :=
  (descendants e).countP (fun c => c.tag == t)

/-- Identities of all elements of the subtree. -/
def eidsOf (e : Elem) : List Nat := (preorder e).map Elem.eid

/-- Does the subtree contain an element with this identity. -/
def containsEid (e : Elem) (x : Nat) : Bool :=
  (preorder e).any (fun n => n.eid == x)

mutual
/-- First element with the given identity, in document order. -/
def findByEid : Elem → Nat → Option Elem
  | .mk i tg a tx tl cs, x =>
    if i = x then some (.mk i tg a tx tl cs) else findByEidL cs x
def findByEidL : List Elem → Nat → Option Elem
  | [], _ => none
  | c :: cs, x =>
    match findByEid c x with
    | some r => some r
    | none => findByEidL cs x
end

mutual
/-- Identity of the parent of the node with the given identity, if the
node occurs in the tree and is not its root. -/
def parentEidOf : Elem → Nat → Option Nat
  | .mk i _ _ _ _ cs, x =>
    if cs.any (fun c => c.eid == x) then some i else parentEidOfL cs x
def parentEidOfL : List Elem → Nat → Option Nat
  | [], _ => none
  | c :: cs, x =>
    match parentEidOf c x with
    | some r => some r
    | none => parentEidOfL cs x
end

mutual
/-- Apply a function at every outermost occurrence of the identity
(unique in well-formed trees); identity-preserving updates only. -/
def mapAt : Elem → Nat → (Elem → Elem) → Elem
  | .mk i tg a tx tl cs, x, f =>
    if i = x then f (.mk i tg a tx tl cs)
    else .mk i tg a tx tl (mapAtL cs x f)
def mapAtL : List Elem → Nat → (Elem → Elem) → List Elem
  | [], _, _ => []
  | c :: cs, x, f => mapAt c x f :: mapAtL cs x f
end

mutual
/-- Remove the subtree with the given identity, modelling lxml
drop_tree: the tail of the removed element is joined onto the previous
sibling tail, or onto the parent text when the element was the first
child.  Returns the modified tree and the removed subtree. -/
def dropIn : Elem → Nat → Option (Elem × Elem)
  | .mk i tg a tx tl cs, x =>
    match dropL cs x with
    | some (cs2, rem, pending) =>
      some (.mk i tg a (if pending then tx ++ rem.tail else tx) tl cs2, rem)
    | none => none
def dropL : List Elem → Nat → Option (List Elem × Elem × Bool)
  | [], _ => none
  | c :: cs, x =>
    if c.eid = x then some (cs, c, true)
    else
      match dropIn c x with
      | some (c2, rem) => some (c2 :: cs, rem, false)
      | none =>
        match dropL cs x with
        | some (cs2, rem, pending) =>
          if pending then some (c.addTail rem.tail :: cs2, rem, false)
          else some (c :: cs2, rem, false)
        | none => none
end

mutual
/-- Remove the subtree with the given identity without tail joining,
modelling xmlUnlinkNode as used by lxml append (the moved element keeps
its tail). -/
def unlinkIn : Elem → Nat → Option (Elem × Elem)
  | .mk i tg a tx tl cs, x =>
    match unlinkL cs x with
    | some (cs2, rem) => some (.mk i tg a tx tl cs2, rem)
    | none => none
def unlinkL : List Elem → Nat → Option (List Elem × Elem)
  | [], _ => none
  | c :: cs, x =>
    if c.eid = x then some (cs, c)
    else
      match unlinkIn c x with
      | some (c2, rem) => some (c2 :: cs, rem)
      | none =>
        match unlinkL cs x with
        | some (cs2, rem) => some (c :: cs2, rem)
        | none => none
end

/-! ## Forest state: the document plus detached-but-alive subtrees -/

/-- Live trees during one extraction: head is the document, the rest are
detached subtrees whose Python objects are still referenced. -/
abbrev Forest := List Elem

/-- Find a node anywhere in the forest. -/
def forestFind : Forest → Nat → Option Elem
  | [], _ => none
  | t :: ts, x =>
    match findByEid t x with
    | some r => some r
    | none => forestFind ts x

/-- Parent identity of a node in the forest; none when the node is a
forest root (detached, modelling getparent returning None) or absent. -/
def forestParent : Forest → Nat → Option Nat
  | [], _ => none
  | t :: ts, x =>
    if (findByEid t x).isSome then parentEidOf t x else forestParent ts x

/-- Drop one node with drop_tree semantics: the detached subtree stays
alive as a new forest root.  A node that is itself a forest root is left
alone (it has no parent). -/
def forestDropOne (f : Forest) (x : Nat) : Forest :=
  match f with
  | [] => []
  | t :: ts =>
    if (findByEid t x).isSome then
      if t.eid = x then t :: ts
      else match dropIn t x with
        | some (t2, rem) => t2 :: (ts ++ [rem])
        | none => t :: ts
    else t :: forestDropOne ts x

/-- Model of drop_nodes_with_parents: drop each listed node whose
getparent is not None. -/
def drop_nodes_with_parents (f : Forest) (xs : List Nat) : Forest :=
  xs.foldl (fun g x =>
    match forestParent g x with
    | some _ => forestDropOne g x
    | none => g) f

/-- Unlink a non-root node in the forest (without tail joining),
returning the forest and the removed subtree. -/
def forestUnlinkChild : Forest → Nat → Option (Forest × Elem)
  | [], _ => none
  | t :: ts, x =>
    if t.eid = x then none
    else match unlinkIn t x with
      | some (t2, rem) => some (t2 :: ts, rem)
      | none =>
        match forestUnlinkChild ts x with
        | some (ts2, rem) => some (t :: ts2, rem)
        | none => none

/-- Unlink a node that may also be a forest root. -/
def forestUnlinkAny : Forest → Nat → Option (Forest × Elem)
  | [], _ => none
  | t :: ts, x =>
    if t.eid = x then some (ts, t)
    else match unlinkIn t x with
      | some (t2, rem) => some (t2 :: ts, rem)
      | none =>
        match forestUnlinkAny ts x with
        | some (ts2, rem) => some (t :: ts2, rem)
        | none => none

/-- Apply an identity-preserving update at a node anywhere in the
forest. -/
def forestMapAt (f : Forest) (x : Nat) (g : Elem → Elem) : Forest :=
  f.map (fun t => mapAt t x g)

/-- Model of lxml element append in the lxml versions breadability
targets: the appended element is first unlinked (keeping its tail) and
then added as last child of the target.  Appending an element to itself
makes xmlAddChild fail after the unlink, so the element merely becomes
detached; when it already was detached nothing changes.  (Later lxml
raises ValueError here, which would make every extraction with
candidates fail; the shipped test suite of this repository passes, so
the historical behaviour is the faithful model.) -/
def forestAppendMove (f : Forest) (wEid sEid : Nat) : Forest :=
  if wEid = sEid then
    if f.any (fun t => t.eid == sEid) then f
    else match forestUnlinkChild f sEid with
      | some (f2, rem) => f2 ++ [rem]
      | none => f
  else
    match forestUnlinkAny f sEid with
    | some (f2, rem) => forestMapAt f2 wEid (Elem.pushChild rem)
    | none => f

/-! ## Serialization (model of lxml tounicode) -/

/-- Render an attribute list. -/
def serAttrs : List (String × String) → String
  | [] => ""
  | kv :: r => " " ++ kv.1 ++ "=\"" ++ kv.2 ++ "\"" ++ serAttrs r

mutual
/-- Serialize an element, modelling tounicode(node): markup, text,
children, closing tag, then the tail.  Only substring checks against
the keyword list of ok_embedded_video depend on this, so the exact
quoting details of lxml are immaterial. -/
def serialize : Elem → String
  | .mk _ tg a tx tl cs =>
    "<" ++ tg ++ serAttrs a ++ ">" ++ tx ++ serializeL cs ++ "</" ++ tg ++ ">" ++ tl
def serializeL : List Elem → String
  | [] => ""
  | c :: cs => serialize c ++ serializeL cs
end

/-! ## Pattern constants and the classifier (modelled from the spec,
because breadability.scoring is not under src/) -/

/-- Alternatives of the UNLIKELY pattern. -/
def UNLIKELY_PATS : List String :=
  ["combx", "comment", "community", "disqus", "extra", "foot", "header",
   "menu", "remark", "rss", "shoutbox", "sidebar", "sponsor", "ad-break",
   "agegate", "pagination", "pager", "popup", "tweet", "twitter"]

/-- Alternatives of the MAYBE pattern. -/
def MAYBE_PATS : List String :=
  ["and", "article", "body", "column", "main", "shadow"]

/-- Alternatives of the POSITIVE pattern. -/
def POSITIVE_PATS : List String :=
  ["article", "body", "content", "entry", "hentry", "main", "page",
   "pagination", "post", "text", "blog", "story"]

/-- Alternatives of the NEGATIVE pattern. -/
def NEGATIVE_PATS : List String :=
  ["combx", "comment", "com-", "contact", "foot", "footer", "footnote",
   "masthead", "media", "meta", "outbrain", "promo", "related", "scroll",
   "shoutbox", "sidebar", "sponsor", "shopping", "tags", "tool", "widget"]

/-- Does any alternative of the (purely literal) pattern occur in the
lowercased text; this models a case-insensitive regex search with an
alternation of literals. -/
def matchesAny (pats : List String) (l : List Char) : Bool :=
  pats.any (fun p => listContainsSub p.toList l)

/-- Modelled from the spec: is_unlikely_node of breadability.scoring
(section 4.2.1).  Class and id text are concatenated, lowercased, and a
node is unlikely when UNLIKELY matches, MAYBE does not, and the tag is
neither html nor body. -/
def is_unlikely_node (n : Elem) : Bool :=
  let s := (((n.getAttr "class").getD "") ++ ((n.getAttr "id").getD "")).toList.map lowerChar
  matchesAny UNLIKELY_PATS s && !(matchesAny MAYBE_PATS s) &&
    !(n.tag == "html") && !(n.tag == "body")

/-- Modelled from the spec: get_class_weight of breadability.scoring
(section 4.2.3).  Plus 25 for a POSITIVE match and minus 25 for a
NEGATIVE match, independently for the class and the id attribute,
summed. -/
def get_class_weight (n : Elem) : Int :=
  let one := fun (v : Option String) =>
    match v with
    | none => (0 : Int)
    | some s =>
      let l := s.toList.map lowerChar
      (if matchesAny POSITIVE_PATS l then (25 : Int) else 0) +
        (if matchesAny NEGATIVE_PATS l then (-25 : Int) else 0)
  one (n.getAttr "class") + one (n.getAttr "id")

/-- Modelled from the spec: get_link_density of breadability.scoring
(section 4.2.4): total text length of descendant anchors over
max(1, total text length). -/
def get_link_density (n : Elem) : Frac :=
  let total := (textContent n).toList.length
  let links := ((descendants n).filter (fun c => c.tag == "a")).foldl
      (fun acc a => acc + (textContent a).toList.length) 0
  ⟨(links : Int), (max 1 total : Nat)⟩

/-- Modelled from the spec: tag_seed of the scorer (section 4.3 item 4). -/
def tag_seed (t : String) : Int :=
  if t == "div" then 5
  else if ["pre", "td", "blockquote"].contains t then 3
  else if ["address", "ol", "ul", "dl", "dd", "dt", "li", "form"].contains t then -3
  else if ["h1", "h2", "h3", "h4", "h5", "h6", "th"].contains t then -5
  else 0

/-- Candidate index: node identity paired with its content score, in
insertion order (a Python dict keyed by element). -/
abbrev CandList := List (Nat × Frac)

/-- Score lookup in the candidate index. -/
def lookupCand : CandList → Nat → Option Frac
  | [], _ => none
  | c :: cs, x => if c.1 = x then some c.2 else lookupCand cs x

/-- Add a delta to the score stored at a key. -/
def updateCand : CandList → Nat → Frac → CandList
  | [], _, _ => []
  | c :: cs, x, d => if c.1 = x then (c.1, Frac.add c.2 d) :: cs else c :: updateCand cs x d

/-- Give a node a score increment, seeding it with class weight plus
tag seed on first touch (spec section 4.3 item 3). -/
def addScore (doc : Elem) (cands : CandList) (x : Nat) (delta : Frac) : CandList :=
  match lookupCand cands x with
  | some _ => updateCand cands x delta
  | none =>
    match findByEid doc x with
    | some n => cands ++ [(x, Frac.add (Frac.ofInt (get_class_weight n + tag_seed n.tag)) delta)]
    | none => cands

/-- Modelled from the spec: score_candidates of breadability.scoring
(section 4.3).  For each collected node with nonempty stripped text of
at least 25 characters, base is 1 plus the comma count plus
min(len div 100, 3); the parent receives base, the grandparent half of
it, with first-touch seeding; finally every candidate score is deflated
by 1 minus its link density. -/
def score_candidates (doc : Elem) (nodes : List Nat) : CandList :=
  let accum := nodes.foldl (fun cands x =>
    match findByEid doc x with
    | none => cands
    | some n =>
      let txt := trimL (textContent n).toList
      if txt.isEmpty || txt.length < 25 then cands
      else
        let base : Frac := ⟨((1 + txt.countP (fun c => c == ',') + min (txt.length / 100) 3 : Nat) : Int), 1⟩
        match parentEidOf doc x with
        | none => cands
        | some pe =>
          let cands2 := addScore doc cands pe base
          match parentEidOf doc pe with
          | none => cands2
          | some ge => addScore doc cands2 ge (Frac.mul base ⟨1, 2⟩)) []
  accum.map (fun c =>
    match findByEid doc c.1 with
    | some n => (c.1, Frac.mul c.2 (Frac.sub ⟨1, 1⟩ (get_link_density n)))
    | none => c)

/-! ## Source functions of readable.py -/

/-- Model of is_bad_link (readable.py lines 42 to 62): for anchors only,
bad when a truthy name attribute comes with no truthy href, or when
splitting the href on the hash sign gives exactly two pieces whose
second is longer than 25 characters. -/
def is_bad_link (node : Elem) : Bool :=
  if !(node.tag == "a") then false
  else
    let name := node.getAttr "name"
    let href := node.getAttr "href"
    if truthyOpt name && !(truthyOpt href) then true
    else if truthyOpt href then
      let url_bits := splitChar '#' ((href.getD "").toList)
      match url_bits with
      | [_, second] => second.length > 25
      | _ => false
    else false

/-- Model of ok_embedded_video (readable.py lines 65 to 74): the
serialized node contains one of the good keywords. -/
def ok_embedded_video (node : Elem) : Bool :=
  let s := serialize node
  containsSub s "youtube" || containsSub s "blip.tv" || containsSub s "vimeo"

/-- The scorable tags of readable.py line 37. -/
def SCORABLE_TAGS : List String := ["div", "p", "td", "pre", "article"]

mutual
/-- Model of transform_misused_divs_into_paragraphs (readable.py lines
137 to 151).  The source iterates div elements in document order and
retags in place; because iter visits parents before children and only
already visited nodes are ever retagged, the children examined by the
membership test always still carry their input tags, so the loop is
equivalent to this context-free preorder rewrite. -/
def transform_misused_divs_into_paragraphs : Elem → Elem
  | .mk i tg a tx tl cs =>
    let tg2 := if tg == "div" && !(cs.any (fun c => c.tag == "div")) then "p" else tg
    .mk i tg2 a tx tl (transformL cs)
/-- Children map of the div-to-paragraph rewrite. -/
def transformL : List Elem → List Elem
  | [] => []
  | c :: cs => transform_misused_divs_into_paragraphs c :: transformL cs
end

/-- Model of the parsed NULL_DOCUMENT constant (readable.py lines 28 to
36); whitespace-only text nodes are irrelevant to every use and are
omitted.  The identities are large constants that no concrete input in
this file reuses. -/
def NULL_DOCUMENT : Elem :=
  .mk 9000001 "html" [] "" ""
    [.mk 9000002 "head" [] "" ""
      [.mk 9000003 "meta"
        [("http-equiv", "Content-Type"), ("content", "text/html;charset=UTF-8")] "" "" []],
     .mk 9000004 "body" [] "" "" []]

/-- Append a tree as the sole child of the body of the NULL_DOCUMENT
shell, modelling insert_point.append. -/
def shellWith (b : Elem) : Elem := mapAt NULL_DOCUMENT 9000004 (Elem.pushChild b)

/-- First descendant with the given tag, modelling find with the
.// axis. -/
def firstDescWithTag (e : Elem) (t : String) : Option Elem :=
  (descendants e).find? (fun c => c.tag == t)

/-- Model of build_base_document (readable.py lines 77 to 113).  The
source mutates the found body in place and returns it; since the
enclosing tree is never used afterwards, returning the modified subtree
is equivalent.  The doctype assignment of the source sets an inert
Python attribute that serialization ignores, so it is not modelled. -/
def build_base_document (html : Elem) (fragment : Bool) : Elem :=
  if html.tag == "body" then
    let b := (html.withTag "div").setA "id" "readabilityBody"
    if fragment then b else shellWith b
  else
    match firstDescWithTag html "body" with
    | some fb =>
      let b := (fb.withTag "div").setA "id" "readabilityBody"
      if fragment then b else shellWith b
    | none =>
      let frag := Elem.mk 9000005 "div" [("id", "readabilityBody")] "" "" [html]
      if fragment then frag else shellWith frag

/-- Model of build_error_document (readable.py lines 116 to 134).  The
html parameter is accepted and ignored exactly as in the source, whose
body never reads it; the call site in _handle_no_candidates passes
self.fragment into this unused slot, leaving the real fragment
parameter at its default True. -/
def build_error_document {α : Type} (html : α) (fragment : Bool) : Elem :=
  let frag := Elem.mk 9000006 "div"
    [("id", "readabilityBody"), ("class", "parsing-error")] "" "" []
  if fragment then frag else shellWith frag

/-- Model of clean_conditionally (readable.py lines 278 to 347).  The
content score consulted is the literal 0 of the source. -/
def clean_conditionally (node : Elem) : Bool :=
  if !( ["form", "table", "ul", "div", "p"].contains node.tag) then false
  else
    let weight := get_class_weight node
    if weight + 0 < 0 then true
    else if (textContent node).toList.countP (fun c => c == ',') < 10 then
      let p := countDescTag node "p"
      let img := countDescTag node "img"
      let li : Int := (countDescTag node "li" : Int) - 100
      let inputCount := countDescTag node "input"
      let embedCount := (descendants node).countP
        (fun e => e.tag == "embed" && ok_embedded_video e)
      let link_density := get_link_density node
      let content_length := (textContent node).toList.length
      if li > (p : Int) && !(node.tag == "ul") && !(node.tag == "ol") then true
      else if Frac.blt ⟨(p : Int), 3⟩ ⟨(inputCount : Int), 1⟩ then true
      else if content_length < 25 && (img == 0 || img > 2) then true
      else if weight < 25 && Frac.blt ⟨1, 5⟩ link_density then true
      else if 25 ≤ weight && Frac.blt ⟨1, 2⟩ link_density then true
      else if (embedCount == 1 && content_length < 75) || embedCount > 1 then true
      else false
    else false

/-- Clear an inline style at one node, modelling the loop body
assignment set(style, empty) guarded by membership in attrib. -/
def clearStyleAt (t : Elem) (x : Nat) : Elem :=
  mapAt t x (fun n =>
    if (n.attrs.find? (fun kv => kv.1 == "style")).isSome then n.setA "style" "" else n)

/-- The removals one visited node contributes during clean_document, in
the order the source appends them. -/
def cleanDropsFor (clean_list : List String) (n : Elem) : List Nat :=
  let d1 := if clean_list.contains n.tag then
      (if (n.tag == "object" || n.tag == "embed") && ok_embedded_video n then [] else [n.eid])
    else []
  let d2 := if ["h1", "h2", "h3", "h4"].contains n.tag &&
      (decide (get_class_weight n < 0) || Frac.blt ⟨33, 100⟩ (get_link_density n)) then [n.eid]
    else []
  let d3 := if n.tag == "p" && n.children.isEmpty && (textContent n).toList.length < 5 then [n.eid]
    else []
  let d4 := if clean_conditionally n then [n.eid] else []
  d1 ++ d2 ++ d3 ++ d4

/-- One removal inside clean_document: the root of the standalone
subtree has no parent and is skipped; a node whose ancestors were
already removed lives in a detached subtree, where its removal cannot
affect the returned tree, so it is skipped as well. -/
def dropStep (u : Elem) (x : Nat) : Elem :=
  if u.eid = x then u
  else match dropIn u x with
    | some (u2, _) => u2
    | none => u

/-- Apply scheduled removals to a standalone subtree, modelling
drop_nodes_with_parents inside clean_document. -/
def applyDrops (t : Elem) (xs : List Nat) : Elem :=
  xs.foldl dropStep t

/-- One visit of the clean_document loop: clear the inline style of the
visited node, then read it back from the current tree and append the
removals it contributes. -/
def cleanStep (clean_list : List String) (st : Elem × List Nat) (x : Nat) : Elem × List Nat :=
  match findByEid (clearStyleAt st.1 x) x with
  | some n => (clearStyleAt st.1 x, st.2 ++ cleanDropsFor clean_list n)
  | none => (clearStyleAt st.1 x, st.2)

/-- The clean-list of clean_document: object and h1, plus h2 when there
is exactly one h2 descendant (readable.py lines 215 to 222). -/
def cleanList (node : Elem) : List String :=
  ["object", "h1"] ++ (if countDescTag node "h2" = 1 then ["h2"] else [])

/-- The full scheduling traversal of clean_document: the interleaved
style-clearing tree and the removal schedule. -/
def cleanFold (node : Elem) : Elem × List Nat :=
  ((preorder node).map Elem.eid).foldl (cleanStep (cleanList node)) (node, [])

/-- Model of clean_document (readable.py lines 209 to 269).  The single
traversal interleaves only one mutation, the inline style clearing, with
the scheduling decisions; cleanFold reproduces that interleaving exactly
(each visited node is style-cleared first, then examined in the current
tree).  Removals are applied afterwards. -/
def clean_document (node : Elem) : Option Elem :=
  if node.children.length = 0 then none
  else some (applyDrops (cleanFold node).1 (cleanFold node).2)

/-- Model of prep_article (readable.py lines 350 to 359). -/
def prep_article (doc : Elem) : Option Elem := clean_document doc

/-- One visit of the find_candidates loop over (nodes to score, nodes
to remove): unlikely nodes and bad anchors go to the removal list, new
scorable nodes to the scoring list. -/
def collectStep (st : List Nat × List Nat) (n : Elem) : List Nat × List Nat :=
  if is_unlikely_node n then (st.1, st.2 ++ [n.eid])
  else if n.tag == "a" && is_bad_link n then (st.1, st.2 ++ [n.eid])
  else if SCORABLE_TAGS.contains n.tag && !(st.1.contains n.eid) then
    (st.1 ++ [n.eid], st.2)
  else st

/-- Model of find_candidates (readable.py lines 362 to 383): one pass in
document order schedules unlikely nodes and bad anchors for removal and
collects the scorable rest, then scores them.  Nothing is detached yet;
scoring runs on the unmodified document. -/
def find_candidates (doc : Elem) : CandList × List Nat :=
  let st := (preorder doc).foldl collectStep ([], [])
  (score_candidates doc st.1, st.2)

/-- Stable insertion for the descending sort. -/
def insertScore (c : Nat × Frac) : CandList → CandList
  | [] => [c]
  | d :: ds => if Frac.ble d.2 c.2 then c :: d :: ds else d :: insertScore c ds

/-- Stable sort by content score descending, modelling the Python
sorted call with reverse true (stable, so equal scores keep candidate
index order). -/
def sortDesc : CandList → CandList
  | [] => []
  | c :: cs => insertScore c (sortDesc cs)

/-- Decision for one sibling inside check_siblings (readable.py lines
165 to 194): the winner itself, a candidate reaching the target score
after the same-class bonus, or the paragraph text rules. -/
def sibDecision (wEid : Nat) (wScore : Frac) (css : Option String) (target : Frac)
    (cands : CandList) (sib : Elem) : Bool :=
  let isSelf := sib.eid == wEid
  let bonus : Frac :=
    if truthyOpt css && (sib.getAttr "class" == css) then Frac.mul wScore ⟨1, 5⟩ else ⟨0, 1⟩
  let byScore :=
    match lookupCand cands sib.eid with
    | some sc => Frac.ble target (Frac.add sc bonus)
    | none => false
  let byText :=
    if sib.tag == "p" then
      let link_density := get_link_density sib
      let content := textContent sib
      let n := content.toList.length
      if n > 80 && Frac.blt link_density ⟨1, 4⟩ then true
      else if n < 80 && Frac.beq link_density ⟨0, 1⟩ then containsSub content ". "
      else false
    else false
  isSelf || byScore || byText

/-- One loop iteration of check_siblings (readable.py lines 196 to 204):
an appended sibling that is neither div nor p is first retagged div,
then moved to the end of the winner children. -/
def sibStep (wEid : Nat) (wScore : Frac) (css : Option String) (target : Frac)
    (cands : CandList) (f : Forest) (sEid : Nat) : Forest :=
  match forestFind f sEid with
  | none => f
  | some sib =>
    if sibDecision wEid wScore css target cands sib then
      let f2 := if sib.tag == "div" || sib.tag == "p" then f
        else forestMapAt f sEid (Elem.withTag "div")
      forestAppendMove f2 wEid sEid
    else f

/-- Model of check_siblings (readable.py lines 154 to 206): the sibling
list is the snapshot of the winner parent children; the threshold is
max(10, a fifth of the winner score). -/
def check_siblings (f : Forest) (w : Nat × Frac) (cands : CandList) : Forest :=
  match forestFind f w.1 with
  | none => f
  | some wnode =>
    let css := wnode.getAttr "class"
    let pt := Frac.mul w.2 ⟨1, 5⟩
    let target := if Frac.blt ⟨10, 1⟩ pt then pt else ⟨10, 1⟩
    let sibs :=
      match forestParent f w.1 with
      | some pe =>
        match forestFind f pe with
        | some pnode => pnode.children.map Elem.eid
        | none => []
      | none => []
    sibs.foldl (sibStep w.1 w.2 css target cands) f

/-! ## The Article pipeline -/

/-- Model of the doc cached property: the externally cleaned parse
result (none standing for the ValueError branch) normalized by the div
rewrite. -/
def Article.doc (input : Option Elem) : Option Elem :=
  input.map transform_misused_divs_into_paragraphs

/-- The state after candidate selection inside _readable (readable.py
lines 440 to 456): none when the candidate index is empty; otherwise
the forest after dropping the scheduled nodes and running
check_siblings, together with the winner identity. -/
def postSiblings (doc : Elem) : Option (Forest × Nat) :=
  let fc := find_candidates doc
  if fc.1.isEmpty then none
  else
    let f1 := drop_nodes_with_parents [doc] fc.2
    match sortDesc fc.1 with
    | [] => none
    | w :: _ => some (check_siblings f1 w fc.1, w.1)

/-- Model of _handle_no_candidates (readable.py lines 471 to 484) run
from the current forest state.  When the document root still has
children, the scheduled nodes are dropped (again, harmlessly, when
already detached) and the cleaned document is wrapped; a cleaning result
of None reaches build_base_document(None) in the source and raises, so
the model returns none there.  Otherwise build_error_document is called
with self.fragment in the unused html slot, so the real fragment
parameter keeps its default True. -/
def noCandFallback (f : Forest) (sd : List Nat) (fragment : Bool) : Option Elem :=
  match f with
  | [] => some (build_error_document fragment true)
  | docNow :: _ =>
    if docNow.children.length = 0 then some (build_error_document fragment true)
    else
      match drop_nodes_with_parents f sd with
      | [] => none
      | d :: _ =>
        match clean_document d with
        | some c => some (build_base_document c fragment)
        | none => none

/-- Model of Article._readable (readable.py lines 438 to 469).  The
returned none models an uncaught Python exception; a returned tree is
the DOM the property yields. -/
def Article.readable (input : Option Elem) (fragment : Bool) : Option Elem :=
  match Article.doc input with
  | none => some (build_error_document fragment true)
  | some doc =>
    if doc.children.length = 0 then some (build_error_document fragment true)
    else
      match postSiblings doc with
      | none => noCandFallback [doc] (find_candidates doc).2 fragment
      | some (f2, wEid) =>
        match forestFind f2 wEid with
        | none => none
        | some wtree =>
          match prep_article wtree with
          | some w => some (build_base_document w fragment)
          | none => noCandFallback f2 (find_candidates doc).2 fragment

/-! ## Auxiliary definitions used by the theorems -/

/-- Placeholder element for total projections out of Option. -/
def elemDefault : Elem := .mk 0 "none" [] "" "" []

mutual
/-- Remove every style attribute in the subtree; two trees with equal
strip images differ at most in style attribute values, which is exactly
the mutation the clean_document traversal interleaves. -/
def stripStyle : Elem → Elem
  | .mk i tg a tx tl cs =>
    .mk i tg (a.filter (fun kv => !(kv.1 == "style"))) tx tl (stripStyleL cs)
def stripStyleL : List Elem → List Elem
  | [] => []
  | c :: cs => stripStyle c :: stripStyleL cs
end

/-- Occurrences of an identity in a subtree. -/
def countEid (e : Elem) (x : Nat) : Nat := (eidsOf e).count x

/-- Occurrences of an identity in a forest of subtrees. -/
def countEidL (cs : List Elem) (x : Nat) : Nat := ((preorderL cs).map Elem.eid).count x

/-- Subtree at a path of child indices. -/
def subtreeAt : Elem → List Nat → Option Elem
  | e, [] => some e
  | e, i :: p =>
    match e.children.get? i with
    | some c => subtreeAt c p
    | none => none

/-- Claim C6 property checker: no div without a direct div child
anywhere in the tree. -/
def leafDivFree (t : Elem) : Bool :=
  (preorder t).all (fun n => !(n.tag == "div") || n.children.any (fun c => c.tag == "div"))

/-- Claim C9 spec-side restatement of the bad-link test: an anchor is
bad when it has a truthy name and no truthy href, or when its href
contains exactly one hash sign and the suffix after that hash sign is
longer than 25 characters. -/
def bad_link_spec (node : Elem) : Bool :=
  node.tag == "a" &&
  ((truthyOpt (node.getAttr "name") && !(truthyOpt (node.getAttr "href"))) ||
   (truthyOpt (node.getAttr "href") &&
    (let l := ((node.getAttr "href").getD "").toList
     (l.countP (fun c => c == '#') == 1) &&
       decide ((l.dropWhile (fun c => !(c == '#'))).tail.length > 25))))

/-! ## Concrete input documents for the claims -/

/-- Thirty characters of prose with two commas. -/
def T30 : String := "abcdefgh, ijklmnop, qrstuvwxyz"

/-- Claim C1 input: the minimal-prose scenario of the spec. -/
def C1doc : Elem :=
  .mk 1 "html" [] "" ""
    [.mk 2 "body" [] "" "" [.mk 3 "div" [] "" "" [.mk 4 "p" [] T30 "" []]]]

/-- Output of the pipeline on C1doc with fragment true. -/
def C1out : Elem := (Article.readable (some C1doc) true).getD elemDefault

/-- Twenty-nine characters with three commas. -/
def T29 : String := "aa, bb, cc, ddddddddddddddddd"

/-- Claim C2 input: the only substantial content sits inside a div
classified unlikely by its class attribute. -/
def C2doc : Elem :=
  .mk 1 "html" [] "" ""
    [.mk 2 "body" [] "" ""
      [.mk 3 "div" [("class", "comment")] "" ""
        [.mk 4 "div" [] "" "" [.mk 5 "p" [] T29 "" []]]]]

/-- The C2 document after the div normalizer. -/
def C2tdoc : Elem := transform_misused_divs_into_paragraphs C2doc

/-- Claim C3 anchor: a bad link (fragment of 26 characters) with thirty
characters of anchor text. -/
def C3anchor : Elem :=
  .mk 5 "a" [("href", "x#aaaaaaaaaaaaaaaaaaaaaaaaaa")]
    "cccccccccccccccccccccccccccccc" "" []

/-- Claim C3 input: the bad anchor sits beside the scored paragraph, so
its text enters the link density of their shared parent. -/
def C3doc : Elem :=
  .mk 1 "html" [] "" ""
    [.mk 2 "body" [] "" "" [.mk 3 "div" [] "" "" [.mk 4 "p" [] T29 "" [], C3anchor]]]

/-- The C3 document after the div normalizer. -/
def C3tdoc : Elem := transform_misused_divs_into_paragraphs C3doc

/-- Thirty characters with seven commas. -/
def T30c7 : String := "aa, bb, cc, dd, ee, ff, gg, hh"

/-- Claim C5 input: the winner div has a single paragraph child that the
conditional cleaner removes (link density above one fifth), plus a
sibling filler that only the whole-document fallback would keep. -/
def C5doc : Elem :=
  .mk 1 "html" [] "" ""
    [.mk 2 "body" [] "" ""
      [.mk 3 "div" [("class", "article")] "" ""
        [.mk 4 "p" [] T30c7 "" [.mk 5 "a" [("href", "x")] "xxxxxxxxxx" "" []]],
       .mk 6 "div" [] "fillerfillerfillerfiller!" "" []]]

/-- The C5 document after the div normalizer. -/
def C5tdoc : Elem := transform_misused_divs_into_paragraphs C5doc

/-- The C5 forest and winner after candidate selection and sibling
extension. -/
def C5post : Forest × Nat := (postSiblings C5tdoc).getD ([], 0)

/-- The C5 winner subtree before cleaning. -/
def C5wtree : Elem := (forestFind C5post.1 C5post.2).getD elemDefault

/-- The C5 winner subtree after cleaning (emptied). -/
def C5cleanw : Elem := (prep_article C5wtree).getD elemDefault

/-- Claim C6 input: a div whose only child is a leaf div. -/
def C6doc : Elem := .mk 1 "div" [] "" "" [.mk 2 "div" [] "x" "" []]

/-- The node at path zero of C6doc. -/
def C6inner : Elem := (subtreeAt C6doc [0]).getD elemDefault

/-- Thirty characters with twelve commas. -/
def C7p5text : String := ",,,,,,,,,,,,aaaaaaaaaaaaaaaaaa"

/-- Exactly eighty characters containing the period-space separator and
no comma. -/
def C7p6text : String :=
  "This is a sentence. This is a sentence. This is a sentence. This is a sentence. "

/-- One hundred fifty characters of anchor text used to deflate the
outer candidates. -/
def C7atext : String :=
  "zzzzzzzzzzzzzzzzzzzzzzzzzzzzzzzzzzzzzzzzzzzzzzzzzzzzzzzzzzzzzzzzzzzzzzzzzz" ++
  "zzzzzzzzzzzzzzzzzzzzzzzzzzzzzzzzzzzzzzzzzzzzzzzzzzzzzzzzzzzzzzzzzzzzzzzzzz"

/-- Claim C7 input: the winner shares a parent with a paragraph of
exactly eighty characters, zero link density and a sentence separator. -/
def C7doc : Elem :=
  .mk 1 "html" [] "" ""
    [.mk 2 "body" [] "" ""
      [.mk 3 "div" [] "" ""
        [.mk 4 "div" [] "" "" [.mk 5 "p" [] C7p5text "" []],
         .mk 6 "p" [] C7p6text "" [],
         .mk 7 "a" [("href", "x")] C7atext "" []]]]

/-- The C7 document after the div normalizer. -/
def C7tdoc : Elem := transform_misused_divs_into_paragraphs C7doc

/-- The eighty-character sibling as an element. -/
def C7sib : Elem := (findByEid C7tdoc 6).getD elemDefault

/-- Witness sibling for the amended claim C7: a short paragraph with a
sentence separator and no links. -/
def C7wsib : Elem := .mk 6 "p" [] "A short paragraph. Yes" "" []

/-- Witness forest tree for the amended claim C7. -/
def C7wdoc : Elem := .mk 3 "div" [] "" "" [.mk 4 "div" [] "" "" [], C7wsib]

/-- Twenty-six characters with three commas. -/
def T26 : String := "aa, bb, cc, dddddddddddddd"

/-- Claim C8 input: the winner div itself satisfies the input-count drop
rule of the conditional cleaner (one input against two paragraphs). -/
def C8doc : Elem :=
  .mk 1 "html" [] "" ""
    [.mk 2 "body" [] "" ""
      [.mk 3 "div" [] "" ""
        [.mk 4 "p" [] T26 "" [], .mk 5 "input" [] "" "" [], .mk 6 "div" [] "" "" []]]]

/-- The C8 document after the div normalizer. -/
def C8tdoc : Elem := transform_misused_divs_into_paragraphs C8doc

/-- The C8 forest and winner after candidate selection and sibling
extension. -/
def C8post : Forest × Nat := (postSiblings C8tdoc).getD ([], 0)

/-- The C8 winner subtree handed to the cleaner. -/
def C8wtree : Elem := (forestFind C8post.1 C8post.2).getD elemDefault

/-- Witness tree for the amended claim C8: the inner div is a proper
descendant holding one input and no paragraph. -/
def C8wit : Elem :=
  .mk 1 "div" [] "" ""
    [.mk 2 "div" [] "" "" [.mk 4 "input" [] "" "" []],
     .mk 5 "p" [] "some sentence text here yes" "" []]

/-- The inner div of the C8 witness tree. -/
def C8witInner : Elem := (findByEid C8wit 2).getD elemDefault

/-- The cleaner output on the C8 witness tree. -/
def C8witOut : Elem := (clean_document C8wit).getD elemDefault

/-- Claim C9 href: two hash signs; twenty-six characters follow the
first one. -/
def C9href : String := "x#aaaaaaaaaaaaaaaaaaaaaaaa#a"

/-- Claim C9 anchor carrying that href. -/
def C9a : Elem := .mk 1 "a" [("href", C9href)] "" "" []

/-- Claim C10 input: the winner owes its score to a grandchild inside an
unlikely div, so dropping the scheduled nodes leaves the winner with
prose text but no element children. -/
def C10doc : Elem :=
  .mk 1 "html" [] "" ""
    [.mk 2 "body" [] "" ""
      [.mk 3 "div" [("class", "article")] "Nice long prose here" ""
        [.mk 4 "div" [("class", "comment")] "" "" [.mk 5 "p" [] T30c7 "" []]]]]

/-- The C10 document after the div normalizer. -/
def C10tdoc : Elem := transform_misused_divs_into_paragraphs C10doc

/-- The C10 forest and winner after candidate selection and sibling
extension. -/
def C10post : Forest × Nat := (postSiblings C10tdoc).getD ([], 0)

/-- The C10 winner subtree: childless but with nonempty prose text. -/
def C10wtree : Elem := (forestFind C10post.1 C10post.2).getD elemDefault

/-! ## Helper lemmas -/

/-- Setting an attribute makes it retrievable. -/
theorem find_setAttrList (k v : String) :
    ∀ (a : List (String × String)),
      (setAttrList k v a).find? (fun kv => kv.1 == k) = some (k, v) := by
  intro a
  induction a with
  | nil => simp [setAttrList]
  | cons kv r ih =>
    by_cases h : kv.1 == k
    · simp [setAttrList, h]
    · simp only [setAttrList, h]
      simp only [List.find?]
      simp [h, ih]

/-- Attribute read after set. -/
theorem getAttr_setA_same (e : Elem) (k v : String) : (e.setA k v).getAttr k = some v := by
  cases e with
  | mk i tg a tx tl cs =>
    simp [Elem.setA, Elem.getAttr, Elem.attrs, find_setAttrList]

/-- Setting an attribute keeps the tag. -/
theorem tag_setA (e : Elem) (k v : String) : (e.setA k v).tag = e.tag := by
  cases e; rfl

/-- Retagging installs the tag. -/
theorem tag_withTag (e : Elem) (t : String) : (e.withTag t).tag = t := by
  cases e; rfl

/-- The fragment-true branch of build_base_document always returns a div
with the readabilityBody id. -/
theorem build_base_document_frag (w : Elem) :
    (build_base_document w true).tag = "div" ∧
    (build_base_document w true).getAttr "id" = some "readabilityBody" := by
  unfold build_base_document
  split
  · constructor
    · rw [if_pos rfl, tag_setA, tag_withTag]
    · rw [if_pos rfl, getAttr_setA_same]
  · split
    · constructor
      · rw [if_pos rfl, tag_setA, tag_withTag]
      · rw [if_pos rfl, getAttr_setA_same]
    · exact ⟨rfl, rfl⟩

/-- The fragment-true branch of build_error_document returns a div with
the readabilityBody id. -/
theorem build_error_document_frag {α : Type} (h : α) :
    (build_error_document h true).tag = "div" ∧
    (build_error_document h true).getAttr "id" = some "readabilityBody" :=
  ⟨rfl, rfl⟩

/-- Every document the fallback returns with fragment true is a div with
the readabilityBody id. -/
theorem noCandFallback_root (f : Forest) (sd : List Nat) (out : Elem)
    (h : noCandFallback f sd true = some out) :
    out.tag = "div" ∧ out.getAttr "id" = some "readabilityBody" := by
  unfold noCandFallback at h
  split at h
  · cases h
    exact build_error_document_frag true
  · split at h
    · cases h
      exact build_error_document_frag true
    · split at h
      · cases h
      · split at h
        · cases h
          exact build_base_document_frag _
        · cases h

/-- The cleaner returns none exactly for childless input. -/
theorem clean_document_none_iff (t : Elem) :
    clean_document t = none ↔ t.children.length = 0 := by
  unfold clean_document
  split <;> simp_all

/-! ## Helper lemmas for the clean_document analysis (claim C8) -/

theorem stripStyle_eid (e : Elem) : (stripStyle e).eid = e.eid := by
  cases e; rfl

theorem stripStyle_tag (e : Elem) : (stripStyle e).tag = e.tag := by
  cases e; rfl

theorem stripStyle_text (e : Elem) : (stripStyle e).text = e.text := by
  cases e; rfl

theorem stripStyle_tail (e : Elem) : (stripStyle e).tail = e.tail := by
  cases e; rfl

theorem stripStyle_children (e : Elem) : (stripStyle e).children = stripStyleL e.children := by
  cases e; rfl

mutual
theorem textContent_strip : ∀ (e : Elem), textContent (stripStyle e) = textContent e
  | .mk i tg a tx tl cs => by
    simp only [stripStyle, textContent]
    rw [textContentL_strip cs]
theorem textContentL_strip : ∀ (l : List Elem), textContentL (stripStyleL l) = textContentL l
  | [] => rfl
  | c :: cs => by
    simp only [stripStyleL, textContentL]
    rw [textContent_strip c, stripStyle_tail c, textContentL_strip cs]
end

mutual
theorem preorder_strip : ∀ (e : Elem), preorder (stripStyle e) = (preorder e).map stripStyle
  | .mk i tg a tx tl cs => by
    simp only [stripStyle, preorder, List.map_cons]
    rw [preorderL_strip cs]
theorem preorderL_strip : ∀ (l : List Elem), preorderL (stripStyleL l) = (preorderL l).map stripStyle
  | [] => rfl
  | c :: cs => by
    simp only [stripStyleL, preorderL, List.map_append]
    rw [preorder_strip c, preorderL_strip cs]
end

theorem eidsOf_strip (e : Elem) : eidsOf (stripStyle e) = eidsOf e := by
  unfold eidsOf
  rw [preorder_strip, List.map_map]
  congr 1
  funext c
  exact stripStyle_eid c

theorem descendants_strip (e : Elem) : descendants (stripStyle e) = (descendants e).map stripStyle := by
  unfold descendants
  rw [stripStyle_children, preorderL_strip]

theorem countDescTag_strip (e : Elem) (t : String) :
    countDescTag (stripStyle e) t = countDescTag e t := by
  unfold countDescTag
  rw [descendants_strip, List.countP_map]
  congr 1
  funext c
  simp [Function.comp, stripStyle_tag]

theorem getAttr_filter_style (a : List (String × String)) (k : String) (hk : ¬(k = "style")) :
    (a.filter (fun kv => !(kv.1 == "style"))).find? (fun kv => kv.1 == k) =
      a.find? (fun kv => kv.1 == k) := by
  induction a with
  | nil => rfl
  | cons kv r ih =>
    by_cases hs : kv.1 = "style"
    · have h2 : (kv.1 == k) = false := by
        simp only [hs]
        simp only [beq_eq_false_iff_ne, ne_eq]
        intro he
        exact hk he.symm
      have h4 : ("style" == k) = false := by
        simp only [beq_eq_false_iff_ne, ne_eq]
        intro he
        exact hk he.symm
      simp [List.filter_cons, hs, List.find?_cons, h2, h4, ih]
    · have h1 : (!(kv.1 == "style")) = true := by simp [hs]
      simp only [List.filter_cons, h1, if_pos]
      by_cases he : kv.1 = k
      · simp [List.find?_cons, he]
      · have h3 : (kv.1 == k) = false := by simp [he]
        simp [List.find?_cons, h3, ih]

theorem getAttr_strip (e : Elem) (k : String) (hk : ¬(k = "style")) :
    (stripStyle e).getAttr k = e.getAttr k := by
  cases e with
  | mk i tg a tx tl cs =>
    simp only [stripStyle, Elem.getAttr, Elem.attrs]
    rw [getAttr_filter_style a k hk]

theorem get_class_weight_strip (e : Elem) :
    get_class_weight (stripStyle e) = get_class_weight e := by
  unfold get_class_weight
  rw [getAttr_strip e "class" (by decide), getAttr_strip e "id" (by decide)]

theorem get_link_density_strip (e : Elem) :
    get_link_density (stripStyle e) = get_link_density e := by
  unfold get_link_density
  rw [textContent_strip, descendants_strip, List.filter_map]
  have hp : (fun c => c.tag == "a") ∘ stripStyle = (fun c => c.tag == "a") := by
    funext c
    simp [Function.comp, stripStyle_tag]
  rw [hp, List.foldl_map]
  have hf : (fun (acc : Nat) a => acc + (textContent (stripStyle a)).toList.length) =
      (fun (acc : Nat) a => acc + (textContent a).toList.length) := by
    funext acc a
    rw [textContent_strip]
  rw [hf]

theorem filter_setAttrList_style (v : String) (a : List (String × String)) :
    (setAttrList "style" v a).filter (fun kv => !(kv.1 == "style")) =
      a.filter (fun kv => !(kv.1 == "style")) := by
  induction a with
  | nil => simp [setAttrList]
  | cons kv r ih =>
    by_cases hs : kv.1 = "style"
    · have h1 : (kv.1 == "style") = true := by simp [hs]
      simp [setAttrList, h1, List.filter_cons]
    · have h1 : (kv.1 == "style") = false := by simp [hs]
      simp [setAttrList, h1, List.filter_cons, ih]

theorem strip_setA_style (n : Elem) (v : String) :
    stripStyle (n.setA "style" v) = stripStyle n := by
  cases n with
  | mk i tg a tx tl cs =>
    simp only [Elem.setA, stripStyle]
    rw [filter_setAttrList_style]

mutual
theorem strip_mapAt : ∀ (t : Elem) (x : Nat) (g : Elem → Elem),
    (∀ n, stripStyle (g n) = stripStyle n) → stripStyle (mapAt t x g) = stripStyle t
  | .mk i tg a tx tl cs, x, g => by
    intro hg
    simp only [mapAt]
    split
    · rw [hg]
    · simp only [stripStyle]
      rw [strip_mapAtL cs x g hg]
theorem strip_mapAtL : ∀ (l : List Elem) (x : Nat) (g : Elem → Elem),
    (∀ n, stripStyle (g n) = stripStyle n) → stripStyleL (mapAtL l x g) = stripStyleL l
  | [], _, _ => by intro hg; rfl
  | c :: cs, x, g => by
    intro hg
    simp only [mapAtL, stripStyleL]
    rw [strip_mapAt c x g hg, strip_mapAtL cs x g hg]
end

theorem strip_clearStyleAt (t : Elem) (x : Nat) :
    stripStyle (clearStyleAt t x) = stripStyle t := by
  unfold clearStyleAt
  apply strip_mapAt
  intro n
  split
  · exact strip_setA_style n ""
  · rfl

mutual
theorem findByEid_strip : ∀ (t : Elem) (x : Nat),
    findByEid (stripStyle t) x = (findByEid t x).map stripStyle
  | .mk i tg a tx tl cs, x => by
    simp only [stripStyle, findByEid]
    split
    · simp [stripStyle]
    · rw [findByEidL_strip cs x]
theorem findByEidL_strip : ∀ (l : List Elem) (x : Nat),
    findByEidL (stripStyleL l) x = (findByEidL l x).map stripStyle
  | [], _ => rfl
  | c :: cs, x => by
    simp only [stripStyleL, findByEidL]
    rw [findByEid_strip c x]
    cases h : findByEid c x <;> simp [findByEidL_strip cs x]
end

theorem mapAt_eid (t : Elem) (x : Nat) (g : Elem → Elem)
    (hg : ∀ n, (g n).eid = n.eid) : (mapAt t x g).eid = t.eid := by
  cases t with
  | mk i tg a tx tl cs =>
    simp only [mapAt]
    split
    · rw [hg]
    · rfl

theorem clearStyleAt_eid (t : Elem) (x : Nat) : (clearStyleAt t x).eid = t.eid := by
  unfold clearStyleAt
  apply mapAt_eid
  intro n
  split
  · cases n; rfl
  · rfl

theorem cc_of_inputs (m : Elem)
    (htag : ["form", "table", "ul", "div", "p"].contains m.tag = true)
    (hcom : (textContent m).toList.countP (fun c => c == ',') < 10)
    (hinp : Frac.blt ⟨(countDescTag m "p" : Int), 3⟩ ⟨(countDescTag m "input" : Int), 1⟩ = true) :
    clean_conditionally m = true := by
  have hcond : (!(["form", "table", "ul", "div", "p"].contains m.tag)) = false := by
    rw [htag]
    rfl
  unfold clean_conditionally
  rw [hcond]
  rw [if_neg (by simp)]
  dsimp only
  by_cases hw : get_class_weight m + 0 < 0
  · rw [if_pos hw]
  · rw [if_neg hw, if_pos hcom]
    by_cases hli : (decide (((countDescTag m "li" : Int) - 100) > (countDescTag m "p" : Int)) &&
        !(m.tag == "ul") && !(m.tag == "ol")) = true
    · rw [if_pos hli]
    · rw [if_neg hli, if_pos hinp]

theorem countEidL_cons (c : Elem) (cs : List Elem) (y : Nat) :
    countEidL (c :: cs) y = countEid c y + countEidL cs y := by
  simp [countEidL, countEid, eidsOf, preorderL, List.count_append]

theorem countEid_mk (i : Nat) (tg : String) (a : List (String × String))
    (tx tl : String) (cs : List Elem) (y : Nat) :
    countEid (.mk i tg a tx tl cs) y = (if i = y then 1 else 0) + countEidL cs y := by
  simp only [countEid, eidsOf, preorder, List.map_cons, List.count_cons, countEidL,
    Elem.eid, beq_iff_eq]
  split <;> omega

theorem countEid_addTail (c : Elem) (s : String) (y : Nat) :
    countEid (c.addTail s) y = countEid c y := by
  cases c with
  | mk i tg a tx tl cs => rw [Elem.addTail, countEid_mk, countEid_mk]

theorem countEid_pos_self (rem : Elem) (x : Nat) (h : rem.eid = x) : 0 < countEid rem x := by
  cases rem with
  | mk i tg a tx tl cs =>
    simp only [Elem.eid] at h
    rw [countEid_mk, if_pos h]
    omega

mutual
theorem dropIn_count : ∀ (e : Elem) (x : Nat) (e2 rem : Elem),
    dropIn e x = some (e2, rem) → ∀ y, countEid e y = countEid e2 y + countEid rem y
  | .mk i tg a tx tl cs, x, e2, rem => by
    simp only [dropIn]
    cases h : dropL cs x with
    | none => intro hc; cases hc
    | some res =>
      obtain ⟨cs2, rem2, pending⟩ := res
      intro heq y
      cases heq
      rw [countEid_mk, countEid_mk]
      have hd := dropL_count cs x cs2 rem pending h y
      omega
theorem dropL_count : ∀ (cs : List Elem) (x : Nat) (cs2 : List Elem) (rem : Elem) (p : Bool),
    dropL cs x = some (cs2, rem, p) → ∀ y, countEidL cs y = countEidL cs2 y + countEid rem y
  | [], x, cs2, rem, p => by intro hc; cases hc
  | c :: cs, x, cs2, rem, p => by
    simp only [dropL]
    split
    · intro heq y
      cases heq
      rw [countEidL_cons]
      omega
    · cases h1 : dropIn c x with
      | some r1 =>
        obtain ⟨c2, rem1⟩ := r1
        intro heq y
        cases heq
        rw [countEidL_cons, countEidL_cons]
        have hd := dropIn_count c x c2 rem h1 y
        omega
      | none =>
        cases h2 : dropL cs x with
        | none => intro hc; cases hc
        | some r2 =>
          obtain ⟨cs3, rem2, p2⟩ := r2
          cases p2 with
          | true =>
            intro heq y
            cases heq
            rw [countEidL_cons, countEidL_cons, countEid_addTail]
            have hd := dropL_count cs x cs3 rem true h2 y
            omega
          | false =>
            intro heq y
            cases heq
            rw [countEidL_cons, countEidL_cons]
            have hd := dropL_count cs x cs3 rem false h2 y
            omega
end

mutual
theorem dropIn_rem_eid : ∀ (e : Elem) (x : Nat) (e2 rem : Elem),
    dropIn e x = some (e2, rem) → rem.eid = x
  | .mk i tg a tx tl cs, x, e2, rem => by
    simp only [dropIn]
    cases h : dropL cs x with
    | none => intro hc; cases hc
    | some res =>
      obtain ⟨cs2, rem2, pending⟩ := res
      intro heq
      cases heq
      exact dropL_rem_eid cs x cs2 rem pending h
theorem dropL_rem_eid : ∀ (cs : List Elem) (x : Nat) (cs2 : List Elem) (rem : Elem) (p : Bool),
    dropL cs x = some (cs2, rem, p) → rem.eid = x
  | [], x, cs2, rem, p => by intro hc; cases hc
  | c :: cs, x, cs2, rem, p => by
    simp only [dropL]
    split
    · intro heq
      cases heq
      assumption
    · cases h1 : dropIn c x with
      | some r1 =>
        obtain ⟨c2, rem1⟩ := r1
        intro heq
        cases heq
        exact dropIn_rem_eid c x c2 rem h1
      | none =>
        cases h2 : dropL cs x with
        | none => intro hc; cases hc
        | some r2 =>
          obtain ⟨cs3, rem2, p2⟩ := r2
          cases p2 with
          | true =>
            intro heq
            cases heq
            exact dropL_rem_eid cs x cs3 rem true h2
          | false =>
            intro heq
            cases heq
            exact dropL_rem_eid cs x cs3 rem false h2
end

mutual
theorem dropIn_isSome : ∀ (e : Elem) (x : Nat),
    0 < countEidL e.children x → (dropIn e x).isSome = true
  | .mk i tg a tx tl cs, x => by
    intro h
    simp only [Elem.children] at h
    simp only [dropIn]
    cases hd : dropL cs x with
    | none =>
      have := dropL_isSome cs x h
      rw [hd] at this
      cases this
    | some res =>
      obtain ⟨cs2, rem, p⟩ := res
      rfl
theorem dropL_isSome : ∀ (cs : List Elem) (x : Nat),
    0 < countEidL cs x → (dropL cs x).isSome = true
  | [], x => by
    intro h
    simp [countEidL, preorderL] at h
  | c :: cs, x => by
    intro h
    rw [countEidL_cons] at h
    simp only [dropL]
    split
    · rfl
    · rename_i hne
      cases h1 : dropIn c x with
      | some r1 =>
        obtain ⟨c2, rem1⟩ := r1
        rfl
      | none =>
        have hc0 : countEid c x = 0 := by
          cases c with
          | mk j tg a tx tl ccs =>
            rw [countEid_mk]
            have hj : ¬(j = x) := by
              intro hj
              exact hne (by simpa [Elem.eid] using hj)
            rw [if_neg hj]
            by_contra hpos
            have hp : 0 < countEidL ccs x := by omega
            have := dropIn_isSome (.mk j tg a tx tl ccs) x (by simpa [Elem.children] using hp)
            rw [h1] at this
            cases this
        have hcs : 0 < countEidL cs x := by omega
        have := dropL_isSome cs x hcs
        cases h2 : dropL cs x with
        | none =>
          rw [h2] at this
          cases this
        | some r2 =>
          obtain ⟨cs3, rem2, p2⟩ := r2
          cases p2 <;> rfl
end

theorem dropIn_keeps_eid (e : Elem) (x : Nat) (e2 rem : Elem)
    (h : dropIn e x = some (e2, rem)) : e2.eid = e.eid := by
  cases e with
  | mk i tg a tx tl cs =>
    simp only [dropIn] at h
    cases hd : dropL cs x with
    | none => rw [hd] at h; cases h
    | some res =>
      obtain ⟨cs2, rem2, p⟩ := res
      rw [hd] at h
      cases h
      rfl

/-! ## Claim C1 -/

/-- Claim C1, counterexample.  The claim states that the extraction
output root is a div with id readabilityBody for both values of the
fragment option; on the minimal-prose success path with fragment false
the returned root is the html element of the full shell. -/
theorem C1_counterexample :
    (Article.readable (some C1doc) false).map Elem.tag = some "html" ∧
    (Article.readable (some C1doc) false).map (fun o => o.getAttr "id") = some none := by
  exact ⟨by decide, by decide⟩

/-- Claim C1, amended: with fragment true, whenever extraction returns a
document, its root is a div whose id attribute is readabilityBody, on
the success, no-candidates and error paths alike. -/
theorem C1_amended (input : Option Elem) (out : Elem)
    (h : Article.readable input true = some out) :
    out.tag = "div" ∧ out.getAttr "id" = some "readabilityBody" := by
  unfold Article.readable at h
  split at h
  · cases h
    exact build_error_document_frag true
  · split at h
    · cases h
      exact build_error_document_frag true
    · split at h
      · exact noCandFallback_root _ _ _ h
      · split at h
        · cases h
        · split at h
          · cases h
            exact build_base_document_frag _
          · exact noCandFallback_root _ _ _ h

/-- Claim C1, witness for the amended theorem at the minimal-prose
document. -/
theorem C1_witness :
    C1out.tag = "div" ∧ C1out.getAttr "id" = some "readabilityBody" :=
  C1_amended (some C1doc) C1out (by rfl)

/-! ## Claim C2 -/

/-- Claim C2, code evaluation.  The div with class comment is unlikely
(and neither html nor body), nodes 4 and 5 are its descendants, the
top-scoring candidate is node 4 inside its subtree, and the extraction
output still contains nodes 4 and 5: a descendant of an unlikely node
survives in the output, against the claim and the specification
invariant. -/
theorem C2_code_eval :
    (findByEid C2doc 3).map is_unlikely_node = some true ∧
    (findByEid C2doc 3).map (fun u => (u.tag, containsEid u 4, containsEid u 5)) =
      some ("div", true, true) ∧
    (postSiblings C2tdoc).map (fun r => r.2) = some 4 ∧
    (Article.readable (some C2doc) true).map (fun o => (containsEid o 4, containsEid o 5)) =
      some (true, true) := by
  exact ⟨by decide, by decide, by decide, by decide⟩

/-! ## Claim C3 -/

/-- Claim C3, counterexample.  The anchor is a bad link and is still in
the document when score_candidates runs: the score the pipeline gives
its parent differs from the score obtained when the anchor is detached
first, because the anchor text enters the link-density deflation. -/
theorem C3_counterexample :
    is_bad_link C3anchor = true ∧
    containsEid C3tdoc 5 = true ∧
    lookupCand (find_candidates C3tdoc).1 3 = some ⟨116, 59⟩ ∧
    (dropIn C3tdoc 5).map (fun r => lookupCand (find_candidates r.1).1 3) =
      some (some ⟨116, 29⟩) ∧
    Frac.beq ⟨116, 59⟩ ⟨116, 29⟩ = false := by
  exact ⟨by decide, by decide, by decide, by decide, by decide⟩


mutual
theorem findByEid_eid : ∀ (e : Elem) (x : Nat) (n : Elem), findByEid e x = some n → n.eid = x
  | .mk i tg a tx tl cs, x, n => by
    simp only [findByEid]
    split
    · intro h
      cases h
      simpa [Elem.eid] using by assumption
    · exact findByEidL_eid cs x n
theorem findByEidL_eid : ∀ (l : List Elem) (x : Nat) (n : Elem), findByEidL l x = some n → n.eid = x
  | [], x, n => by simp [findByEidL]
  | c :: cs, x, n => by
    simp only [findByEidL]
    cases h : findByEid c x with
    | some r =>
      intro h2
      cases h2
      exact findByEid_eid c x _ h
    | none => exact findByEidL_eid cs x n
end

mutual
theorem findByEid_mem : ∀ (e : Elem) (x : Nat) (n : Elem),
    findByEid e x = some n → n ∈ preorder e
  | .mk i tg a tx tl cs, x, n => by
    simp only [findByEid, preorder]
    split
    · intro h
      cases h
      exact List.mem_cons_self _ _
    · intro h
      exact List.mem_cons_of_mem _ (findByEidL_mem cs x n h)
theorem findByEidL_mem : ∀ (l : List Elem) (x : Nat) (n : Elem),
    findByEidL l x = some n → n ∈ preorderL l
  | [], x, n => by simp [findByEidL]
  | c :: cs, x, n => by
    simp only [findByEidL, preorderL]
    cases h : findByEid c x with
    | some r =>
      intro h2
      cases h2
      exact List.mem_append_left _ (findByEid_mem c x _ h)
    | none =>
      intro h2
      exact List.mem_append_right _ (findByEidL_mem cs x n h2)
end

theorem collect_mono (l : List Elem) (st : List Nat × List Nat) (y : Nat)
    (h : y ∈ st.2) : y ∈ (l.foldl collectStep st).2 := by
  induction l generalizing st with
  | nil => simpa using h
  | cons n rest ih =>
    simp only [List.foldl_cons]
    apply ih
    unfold collectStep
    split
    · simpa using Or.inl h
    · split
      · simpa using Or.inl h
      · split
        · simpa using h
        · simpa using h

theorem collect_mem (l : List Elem) (st : List Nat × List Nat) (n : Elem)
    (hmem : n ∈ l) (htag : n.tag = "a") (hbad : is_bad_link n = true) :
    n.eid ∈ (l.foldl collectStep st).2 := by
  induction l generalizing st with
  | nil => cases hmem
  | cons c rest ih =>
    rcases List.mem_cons.mp hmem with hc | hrest
    · subst hc
      simp only [List.foldl_cons]
      apply collect_mono
      unfold collectStep
      split
      · simp
      · split
        · simp
        · rename_i h1 h2
          exact absurd (by simp [htag, hbad]) h2
    · simp only [List.foldl_cons]
      exact ih _ hrest

/-- Claim C3, amended: a bad anchor is only scheduled for removal
during candidate collection; it is still part of the document that
score_candidates receives (find_candidates scores the unmodified
document by construction), and is detached later in _readable, before
winner selection.  Hence every bad anchor ends up in the removal list,
while its text does contribute to the link-density deflation of its
ancestors (see the counterexample). -/
theorem C3_amended (doc : Elem) (x : Nat) (n : Elem)
    (hfind : findByEid doc x = some n)
    (htag : n.tag = "a")
    (hbad : is_bad_link n = true) :
    x ∈ (find_candidates doc).2 := by
  have hm := findByEid_mem doc x n hfind
  have he := findByEid_eid doc x n hfind
  unfold find_candidates
  simpa using he ▸ collect_mem (preorder doc) ([], []) n hm htag hbad

/-- Claim C3, witness for the amended theorem: the bad anchor of the
C3 document is scheduled. -/
theorem C3_witness :
    5 ∈ (find_candidates C3tdoc).2 :=
  C3_amended C3tdoc 5 C3anchor (by rfl) (by rfl) (by rfl)


/-! ## Claim C4 -/

/-- Claim C4, code evaluation.  With no usable document and fragment
false, the returned value is the bare error div (empty, with the
parsing-error class), not a full html shell: _handle_no_candidates
passes self.fragment into the unused html parameter of
build_error_document, so the real fragment parameter stays True. -/
theorem C4_code_eval :
    (Article.readable none false).map
      (fun o => (o.tag, o.getAttr "id", o.getAttr "class", o.children.isEmpty)) =
      some ("div", some "readabilityBody", some "parsing-error", true) := by
  decide

/-! ## Claim C5 -/

/-- Claim C5, counterexample.  The winner enters the cleaner nonempty,
the cleaner empties it, and the engine wraps the emptied winner instead
of recovering as in the no-candidates case: the actual output keeps the
winner (node 3) and lacks the filler (node 6), while the no-candidates
recovery from the same state would drop the winner and keep the
filler. -/
theorem C5_counterexample :
    (forestFind C5post.1 C5post.2).map (fun w => w.children.isEmpty) = some false ∧
    (prep_article C5wtree).map (fun c => c.children.isEmpty) = some true ∧
    (Article.readable (some C5doc) true).map (fun o => (containsEid o 3, containsEid o 6)) =
      some (true, false) ∧
    (noCandFallback C5post.1 (find_candidates C5tdoc).2 true).map
      (fun o => (containsEid o 3, containsEid o 6)) = some (false, true) := by
  exact ⟨by decide, by decide, by decide, by decide⟩


/-- Dispatch of _readable after a nonempty candidate index: the result
is the wrapped cleaned winner, or the no-candidates recovery when the
cleaner returns none. -/
theorem readable_eq_of_stages (input : Option Elem) (fragment : Bool) (doc : Elem)
    (f2 : Forest) (wEid : Nat) (wtree : Elem)
    (hdoc : Article.doc input = some doc)
    (hne : doc.children.length ≠ 0)
    (hpost : postSiblings doc = some (f2, wEid))
    (hfind : forestFind f2 wEid = some wtree) :
    Article.readable input fragment =
      match prep_article wtree with
      | some w => some (build_base_document w fragment)
      | none => noCandFallback f2 (find_candidates doc).2 fragment := by
  unfold Article.readable
  simp only [hdoc]
  rw [if_neg hne]
  simp only [hpost, hfind]

/-- Claim C5, amended: the emptiness test runs after sibling extension
but BEFORE conditional cleaning.  A winner with no element children at
that point makes the engine recover as in the no-candidates case; a
winner that enters the cleaner nonempty is wrapped and returned even
when cleaning leaves it empty (see the counterexample). -/
theorem C5_amended (input : Option Elem) (fragment : Bool) (doc : Elem)
    (f2 : Forest) (wEid : Nat) (wtree : Elem)
    (hdoc : Article.doc input = some doc)
    (hne : doc.children.length ≠ 0)
    (hpost : postSiblings doc = some (f2, wEid))
    (hfind : forestFind f2 wEid = some wtree) :
    (wtree.children.length = 0 →
      Article.readable input fragment = noCandFallback f2 (find_candidates doc).2 fragment) ∧
    (∀ w, prep_article wtree = some w →
      Article.readable input fragment = some (build_base_document w fragment)) := by
  have hread := readable_eq_of_stages input fragment doc f2 wEid wtree hdoc hne hpost hfind
  constructor
  · intro hz
    rw [hread]
    have hnone : prep_article wtree = none := by
      unfold prep_article
      exact (clean_document_none_iff wtree).mpr hz
    rw [hnone]
  · intro w hw
    rw [hread, hw]

/-- Claim C5, witness for the amended theorem: the C5 winner enters the
cleaner nonempty, is emptied by it, and is still wrapped directly. -/
theorem C5_witness :
    Article.readable (some C5doc) true = some (build_base_document C5cleanw true) ∧
    C5wtree.children.length ≠ 0 ∧
    C5cleanw.children.length = 0 :=
  ⟨(C5_amended (some C5doc) true C5tdoc C5post.1 C5post.2 C5wtree (by rfl) (by decide)
      (by rfl) (by rfl)).2 C5cleanw (by rfl),
   by decide, by decide⟩


/-! ## Claim C6 -/

/-- Claim C6, counterexample.  After the normalizer, the outer div of a
nested div pair keeps its div tag although its only child has become a
paragraph, so a div without a direct div child remains in the normalized
document. -/
theorem C6_counterexample :
    leafDivFree (transform_misused_divs_into_paragraphs C6doc) = false ∧
    (findByEid (transform_misused_divs_into_paragraphs C6doc) 1).map
      (fun n => (n.tag, n.children.map Elem.tag)) = some ("div", ["p"]) := by
  exact ⟨by decide, by decide⟩


theorem transform_children (e : Elem) :
    (transform_misused_divs_into_paragraphs e).children = transformL e.children := by
  cases e
  rfl

theorem transformL_get (cs : List Elem) (i : Nat) :
    (transformL cs).get? i = (cs.get? i).map transform_misused_divs_into_paragraphs := by
  induction cs generalizing i with
  | nil => simp [transformL]
  | cons c r ih =>
    cases i with
    | zero => simp [transformL]
    | succ j => simpa [transformL] using ih j

theorem subtreeAt_transform (path : List Nat) : ∀ (t : Elem),
    subtreeAt (transform_misused_divs_into_paragraphs t) path =
      (subtreeAt t path).map transform_misused_divs_into_paragraphs := by
  induction path with
  | nil => intro t; rfl
  | cons i p ih =>
    intro t
    simp only [subtreeAt, transform_children, transformL_get]
    cases h : t.children.get? i with
    | none => simp
    | some c => simp [ih]

/-- Claim C6, amended: every div whose direct children in the INPUT
document contain no div is retagged to a paragraph by the normalizer.
The post-state reading of the claim fails (see the counterexample)
because such a child may itself have been retagged, leaving its parent
a div without a direct div child. -/
theorem C6_amended (t : Elem) (path : List Nat) (n : Elem)
    (hat : subtreeAt t path = some n)
    (hdiv : n.tag = "div")
    (hleaf : n.children.all (fun c => !(c.tag == "div")) = true) :
    (subtreeAt (transform_misused_divs_into_paragraphs t) path).map Elem.tag = some "p" := by
  rw [subtreeAt_transform, hat]
  simp only [Option.map]
  cases n with
  | mk i tg a tx tl cs =>
    simp only [Elem.tag] at hdiv
    simp only [Elem.children] at hleaf
    have hany : (cs.any fun c => c.tag == "div") = false := by
      rw [← Bool.not_eq_true]
      intro hx
      rcases List.any_eq_true.mp hx with ⟨c, hmem, hcd⟩
      have := List.all_eq_true.mp hleaf c hmem
      rw [hcd] at this
      simp at this
    simp [transform_misused_divs_into_paragraphs, hdiv, hany, Elem.tag]
    intro x hx
    have hx2 := List.all_eq_true.mp hleaf x hx
    cases x
    simpa [Elem.tag] using hx2

/-- Claim C6, witness for the amended theorem: the inner leaf div of
the nested pair is retagged. -/
theorem C6_witness :
    subtreeAt C6doc [0] = some C6inner ∧
    C6inner.tag = "div" ∧
    C6inner.children.all (fun c => !(c.tag == "div")) = true ∧
    (subtreeAt (transform_misused_divs_into_paragraphs C6doc) [0]).map Elem.tag = some "p" :=
  ⟨by rfl, by rfl, by decide,
    C6_amended C6doc [0] C6inner (by rfl) (by rfl) (by decide)⟩


/-! ## Claim C7 -/

/-- Claim C7, counterexample.  Node 6 is a paragraph sibling of the
winner with text of exactly eighty characters, zero link density and the
sentence separator, yet after sibling extension it is not a child of the
winner: both paragraph rules use strict comparisons, so length exactly
eighty is excluded. -/
theorem C7_counterexample :
    (findByEid C7tdoc 6).map
      (fun s => (s.tag, (textContent s).toList.length,
        Frac.beq (get_link_density s) ⟨0, 1⟩, containsSub (textContent s) ". ")) =
      some ("p", 80, true, true) ∧
    parentEidOf C7tdoc 6 = some 3 ∧
    parentEidOf C7tdoc 4 = some 3 ∧
    (postSiblings C7tdoc).map (fun r => r.2) = some 4 ∧
    (postSiblings C7tdoc).map (fun r => (forestFind r.1 r.2).map
      (fun w => w.children.any (fun c => c.eid == 6))) = some (some false) := by
  exact ⟨by decide, by decide, by decide, by decide, by decide⟩

/-- Claim C7, amended: during sibling extension, every examined sibling
that is a paragraph with text length strictly below 80, link density
exactly zero and the sentence separator in its text is appended to the
winner (the boundary case of exactly 80 characters is excluded by both
paragraph rules). -/
theorem C7_amended (wEid : Nat) (wScore : Frac) (css : Option String) (target : Frac)
    (cands : CandList) (f : Forest) (sEid : Nat) (sib : Elem)
    (hfind : forestFind f sEid = some sib)
    (htag : sib.tag = "p")
    (hlen : (textContent sib).length < 80)
    (hld : Frac.beq (get_link_density sib) ⟨0, 1⟩ = true)
    (hdot : containsSub (textContent sib) ". " = true) :
    sibDecision wEid wScore css target cands sib = true ∧
    sibStep wEid wScore css target cands f sEid = forestAppendMove f wEid sEid := by
  have hdec : sibDecision wEid wScore css target cands sib = true := by
    unfold sibDecision
    simp [htag, hld, hdot]
    exact Or.inr (Or.inr hlen)
  refine ⟨hdec, ?_⟩
  unfold sibStep
  rw [hfind]
  simp [hdec, htag]

/-- Claim C7, witness for the amended theorem: a 22-character paragraph
sibling is appended. -/
theorem C7_witness :
    sibDecision 4 ⟨13, 1⟩ none ⟨10, 1⟩ [] C7wsib = true ∧
    sibStep 4 ⟨13, 1⟩ none ⟨10, 1⟩ [] [C7wdoc] 6 = forestAppendMove [C7wdoc] 4 6 :=
  C7_amended 4 ⟨13, 1⟩ none ⟨10, 1⟩ [] [C7wdoc] 6 C7wsib (by rfl) (by rfl)
    (by decide) (by decide) (by decide)

/-! ## Claim C8 -/

/-- Claim C8, counterexample.  The winner div itself has fewer than ten
commas and more inputs than a third of its paragraphs, so
clean_conditionally schedules it; but being the root of the extracted
subtree it survives the drop application and is present in the final
output. -/
theorem C8_counterexample :
    (forestFind C8post.1 C8post.2).map
      (fun w => (["form", "table", "ul", "div", "p"].contains w.tag,
        (textContent w).toList.countP (fun c => c == ','),
        countDescTag w "p", countDescTag w "input", clean_conditionally w)) =
      some (true, 3, 2, 1, true) ∧
    Frac.blt ⟨2, 3⟩ ⟨1, 1⟩ = true ∧
    C8post.2 = 3 ∧
    (prep_article C8wtree).map Elem.eid = some 3 ∧
    (Article.readable (some C8doc) true).map (fun o => containsEid o 3) = some true := by
  exact ⟨by decide, by decide, by decide, by decide, by decide⟩

theorem dropStep_count_le (u : Elem) (h y : Nat) :
    countEid (dropStep u h) y ≤ countEid u y := by
  unfold dropStep
  split
  · exact Nat.le_refl _
  · cases hd : dropIn u h with
    | some r =>
      obtain ⟨u2, rem⟩ := r
      dsimp only
      have := dropIn_count u h u2 rem hd y
      omega
    | none => exact Nat.le_refl _

theorem dropStep_eid (u : Elem) (h : Nat) : (dropStep u h).eid = u.eid := by
  unfold dropStep
  split
  · rfl
  · cases hd : dropIn u h with
    | some r =>
      obtain ⟨u2, rem⟩ := r
      dsimp only
      exact dropIn_keeps_eid u h u2 rem hd
    | none => rfl

theorem dropStep_kills (u : Elem) (x : Nat) (hne : ¬(u.eid = x))
    (hle : countEid u x ≤ 1) : countEid (dropStep u x) x = 0 := by
  unfold dropStep
  rw [if_neg hne]
  cases hd : dropIn u x with
  | some r =>
    obtain ⟨u2, rem⟩ := r
    dsimp only
    have hc := dropIn_count u x u2 rem hd x
    have hr : rem.eid = x := dropIn_rem_eid u x u2 rem hd
    have hp := countEid_pos_self rem x hr
    omega
  | none =>
    cases u with
    | mk i tg a tx tl cs =>
      dsimp only
      rw [countEid_mk]
      simp only [Elem.eid] at hne
      rw [if_neg hne]
      by_contra hpos
      have hcp : 0 < countEidL cs x := by omega
      have := dropIn_isSome (.mk i tg a tx tl cs) x (by simpa [Elem.children] using hcp)
      rw [hd] at this
      cases this

theorem applyDrops_count_le (xs : List Nat) (u : Elem) (y : Nat) :
    countEid (applyDrops u xs) y ≤ countEid u y := by
  induction xs generalizing u with
  | nil => exact Nat.le_refl _
  | cons h t ih =>
    unfold applyDrops at ih ⊢
    rw [List.foldl_cons]
    exact Nat.le_trans (ih (dropStep u h)) (dropStep_count_le u h y)

theorem applyDrops_kills (xs : List Nat) (u : Elem) (x : Nat)
    (hroot : ∀ v : Elem, v.eid = u.eid → ¬(v.eid = x))
    (hmem : x ∈ xs) (hle : countEid u x ≤ 1) :
    countEid (applyDrops u xs) x = 0 := by
  induction xs generalizing u with
  | nil => cases hmem
  | cons h t ih =>
    unfold applyDrops at ih ⊢
    rw [List.foldl_cons]
    rcases List.mem_cons.mp hmem with hx | ht
    · subst hx
      have hz := dropStep_kills u x (hroot u rfl) hle
      have := applyDrops_count_le t (dropStep u x) x
      unfold applyDrops at this
      omega
    · have he := dropStep_eid u h
      exact ih (dropStep u h)
        (fun v hv => hroot v (by rw [hv, he]))
        ht
        (Nat.le_trans (dropStep_count_le u h x) hle)

theorem containsEid_count (e : Elem) (x : Nat) :
    containsEid e x = true ↔ 0 < countEid e x := by
  unfold containsEid countEid eidsOf
  rw [List.any_eq_true]
  constructor
  · rintro ⟨n, hmem, hn⟩
    have hx : n.eid = x := by simpa using hn
    have : x ∈ (preorder e).map Elem.eid := List.mem_map.mpr ⟨n, hmem, hx⟩
    exact List.count_pos_iff.mpr this
  · intro hpos
    have := List.count_pos_iff.mp hpos
    rcases List.mem_map.mp this with ⟨n, hmem, hx⟩
    exact ⟨n, hmem, by simpa using hx⟩

theorem findByEid_mem_eids (t : Elem) (x : Nat) (n : Elem)
    (h : findByEid t x = some n) : x ∈ eidsOf t :=
  List.mem_map.mpr ⟨n, findByEid_mem t x n h, findByEid_eid t x n h⟩

theorem cc_transport (m n : Elem) (hmn : stripStyle m = stripStyle n)
    (htag : ["form", "table", "ul", "div", "p"].contains n.tag = true)
    (hcom : (textContent n).toList.countP (fun c => c == ',') < 10)
    (hinp : Frac.blt ⟨(countDescTag n "p" : Int), 3⟩ ⟨(countDescTag n "input" : Int), 1⟩ = true) :
    clean_conditionally m = true := by
  have htg : m.tag = n.tag := by
    rw [← stripStyle_tag m, hmn, stripStyle_tag]
  have htc : textContent m = textContent n := by
    rw [← textContent_strip m, hmn, textContent_strip]
  have hcd : ∀ s, countDescTag m s = countDescTag n s := by
    intro s
    rw [← countDescTag_strip m, hmn, countDescTag_strip]
  apply cc_of_inputs m
  · rw [htg]
    exact htag
  · rw [htc]
    exact hcom
  · rw [hcd "p", hcd "input"]
    exact hinp

theorem cleanStep_fst_strip (cl : List String) (st : Elem × List Nat) (x : Nat) :
    stripStyle ((cleanStep cl st x).1) = stripStyle st.1 := by
  unfold cleanStep
  cases h : findByEid (clearStyleAt st.1 x) x <;> simp [strip_clearStyleAt]

theorem cleanFold_strip (cl : List String) (L : List Nat) (st : Elem × List Nat) :
    stripStyle ((L.foldl (cleanStep cl) st).1) = stripStyle st.1 := by
  induction L generalizing st with
  | nil => rfl
  | cons x L ih =>
    rw [List.foldl_cons]
    rw [ih (cleanStep cl st x), cleanStep_fst_strip]

theorem cleanFold_acc_mono (cl : List String) (L : List Nat) (st : Elem × List Nat)
    (y : Nat) (h : y ∈ st.2) : y ∈ (L.foldl (cleanStep cl) st).2 := by
  induction L generalizing st with
  | nil => exact h
  | cons x L ih =>
    rw [List.foldl_cons]
    apply ih
    unfold cleanStep
    cases hf : findByEid (clearStyleAt st.1 x) x with
    | some m => exact List.mem_append_left _ h
    | none => exact h

theorem cleanFold_schedules (cl : List String) (t0 : Elem) (x : Nat) (n : Elem)
    (hfind : findByEid t0 x = some n)
    (htag : ["form", "table", "ul", "div", "p"].contains n.tag = true)
    (hcom : (textContent n).toList.countP (fun c => c == ',') < 10)
    (hinp : Frac.blt ⟨(countDescTag n "p" : Int), 3⟩ ⟨(countDescTag n "input" : Int), 1⟩ = true) :
    ∀ (L : List Nat) (st : Elem × List Nat), x ∈ L → stripStyle st.1 = stripStyle t0 →
      x ∈ (L.foldl (cleanStep cl) st).2 := by
  intro L
  induction L with
  | nil => intro st hx; cases hx
  | cons h L ih =>
    intro st hx hst
    rw [List.foldl_cons]
    rcases List.mem_cons.mp hx with hhx | hLx
    · subst hhx
      apply cleanFold_acc_mono
      unfold cleanStep
      have hstrip2 : stripStyle (clearStyleAt st.1 x) = stripStyle t0 := by
        rw [strip_clearStyleAt, hst]
      have hmap : (findByEid (clearStyleAt st.1 x) x).map stripStyle = some (stripStyle n) := by
        rw [← findByEid_strip, hstrip2, findByEid_strip, hfind]
        rfl
      cases hf : findByEid (clearStyleAt st.1 x) x with
      | none => rw [hf] at hmap; cases hmap
      | some m =>
        rw [hf] at hmap
        have hmn : stripStyle m = stripStyle n := by
          simpa using hmap
        have hcc : clean_conditionally m = true := cc_transport m n hmn htag hcom hinp
        have hme : m.eid = x := findByEid_eid _ x m hf
        apply List.mem_append_right
        unfold cleanDropsFor
        rw [hcc]
        simp [hme]
    · exact ih (cleanStep cl st h) hLx (by rw [cleanStep_fst_strip, hst])

/-- Claim C8, amended: every PROPER descendant of the cleaned subtree
root whose tag is in the target set, whose text has fewer than ten
commas and whose descendant input count exceeds one third of its
descendant paragraph count is absent from the tree the cleaner returns.
The root itself does not satisfy this (see the counterexample): it is
skipped by the parent check of drop_nodes_with_parents and is returned
regardless. -/
theorem C8_amended (t : Elem) (x : Nat) (n : Elem)
    (hnd : (eidsOf t).Nodup)
    (hfind : findByEid t x = some n)
    (hroot : ¬(x = t.eid))
    (htag : ["form", "table", "ul", "div", "p"].contains n.tag = true)
    (hcom : (textContent n).toList.countP (fun c => c == ',') < 10)
    (hinp : Frac.blt ⟨(countDescTag n "p" : Int), 3⟩ ⟨(countDescTag n "input" : Int), 1⟩ = true)
    (out : Elem) (hclean : clean_document t = some out) :
    containsEid out x = false := by
  unfold clean_document at hclean
  split at hclean
  · cases hclean
  · cases hclean
    have hsched : x ∈ (cleanFold t).2 := by
      unfold cleanFold
      exact cleanFold_schedules (cleanList t) t x n hfind htag hcom hinp _ _
        (findByEid_mem_eids t x n hfind) rfl
    have hstrip : stripStyle ((cleanFold t).1) = stripStyle t := by
      unfold cleanFold
      exact cleanFold_strip (cleanList t) _ (t, [])
    have heids : eidsOf ((cleanFold t).1) = eidsOf t := by
      rw [← eidsOf_strip, hstrip, eidsOf_strip]
    have hle : countEid ((cleanFold t).1) x ≤ 1 := by
      unfold countEid
      rw [heids]
      exact List.nodup_iff_count_le_one.mp hnd x
    have hre : ((cleanFold t).1).eid = t.eid := by
      rw [← stripStyle_eid, hstrip, stripStyle_eid]
    have hz := applyDrops_kills ((cleanFold t).2) ((cleanFold t).1) x
      (fun v hv hx => hroot (by rw [← hx, hv, hre])) hsched hle
    cases hcb : containsEid (applyDrops (cleanFold t).1 (cleanFold t).2) x with
    | false => rfl
    | true =>
      have := (containsEid_count _ x).mp hcb
      omega

/-- Claim C8, witness for the amended theorem: the inner div of the
witness tree is removed by the cleaner. -/
theorem C8_witness :
    containsEid C8witOut 2 = false ∧
    clean_document C8wit = some C8witOut ∧
    countDescTag C8witInner "input" = 1 ∧
    countDescTag C8witInner "p" = 0 :=
  ⟨C8_amended C8wit 2 C8witInner (by decide) (by rfl) (by decide) (by decide) (by decide)
      (by decide) C8witOut (by rfl),
   by rfl, by decide, by decide⟩


/-! ## Claim C9 -/

/-- Claim C9, counterexample.  An href with two hash signs whose text
after the first hash sign has 26 characters is declared good by the
code, against the claim that any fragment longer than 25 characters is
bad regardless of how many hash signs the href contains. -/
theorem C9_counterexample :
    C9a.tag = "a" ∧
    C9a.getAttr "href" = some C9href ∧
    ((C9href.toList.dropWhile (fun c => !(c == '#'))).tail).length = 26 ∧
    is_bad_link C9a = false := by
  exact ⟨by decide, by decide, by decide, by decide⟩


theorem splitChar_length (sep : Char) (l : List Char) :
    (splitChar sep l).length = l.countP (fun c => c == sep) + 1 := by
  induction l with
  | nil => rfl
  | cons c cs ih =>
    simp only [splitChar, List.countP_cons]
    by_cases h : c = sep
    · simp [h, ih]
    · simp only [if_neg h]
      cases hr : splitChar sep cs with
      | nil => rw [hr] at ih; simp at ih
      | cons w ws =>
        rw [hr] at ih
        simp at ih
        simp [h, ih]

theorem splitChar_nosep (sep : Char) (l : List Char)
    (h : l.countP (fun c => c == sep) = 0) : splitChar sep l = [l] := by
  induction l with
  | nil => rfl
  | cons c cs ih =>
    simp only [List.countP_cons] at h
    by_cases hc : c = sep
    · simp [hc] at h
    · have h0 : cs.countP (fun c => c == sep) = 0 := by
        by_cases hcs : cs.countP (fun c => c == sep) = 0
        · exact hcs
        · omega
      simp only [splitChar, if_neg hc, ih h0]

theorem splitChar_onesep (sep : Char) (l : List Char)
    (h : l.countP (fun c => c == sep) = 1) :
    splitChar sep l = [l.takeWhile (fun c => !(c == sep)),
      (l.dropWhile (fun c => !(c == sep))).tail] := by
  induction l with
  | nil => simp at h
  | cons c cs ih =>
    simp only [List.countP_cons] at h
    by_cases hc : c = sep
    · have h0 : cs.countP (fun c => c == sep) = 0 := by
        rw [if_pos (by simp [hc])] at h
        omega
      have hb : (!(c == sep)) = false := by simp [hc]
      simp [splitChar, hc, splitChar_nosep sep cs h0, List.takeWhile_cons, List.dropWhile_cons, hb]
    · have h1 : cs.countP (fun c => c == sep) = 1 := by
        rw [if_neg (by simp [hc])] at h
        omega
      have hb : (!(c == sep)) = true := by simp [hc]
      simp [splitChar, hc, ih h1, List.takeWhile_cons, List.dropWhile_cons, hb]

theorem split_match_eq (l : List Char) :
    (match splitChar '#' l with
     | [_, second] => decide (second.length > 25)
     | _ => false) =
    ((l.countP (fun c => c == '#') == 1) &&
      decide ((l.dropWhile (fun c => !(c == '#'))).tail.length > 25)) := by
  cases hc : l.countP (fun c => c == '#') with
  | zero =>
    rw [splitChar_nosep _ _ hc]
    simp
  | succ n =>
    cases n with
    | zero =>
      rw [splitChar_onesep _ _ hc]
      simp
    | succ m =>
      have hl := splitChar_length '#' l
      rw [hc] at hl
      match hsp : splitChar '#' l with
      | [] => rw [hsp] at hl; simp at hl
      | [a] => rw [hsp] at hl; simp at hl
      | [a, b] => rw [hsp] at hl; simp at hl
      | a :: b :: c :: r => simp

/-- Claim C9, amended: the bad-link test holds exactly when, for an
anchor element, it has a truthy name attribute but no truthy href, or
its href contains exactly one hash sign whose suffix exceeds 25
characters; an href with several hash signs always passes, as do all
other anchors and all non-anchor elements. -/
theorem C9_amended (node : Elem) : is_bad_link node = bad_link_spec node := by
  unfold is_bad_link bad_link_spec
  by_cases htag : node.tag == "a"
  · rw [htag]
    rw [if_neg (by simp)]
    cases hn : truthyOpt (node.getAttr "name") <;>
      cases hh : truthyOpt (node.getAttr "href") <;>
        simp [hn, hh, split_match_eq]
  · have htag2 : (node.tag == "a") = false := by
      cases hx : (node.tag == "a")
      · rfl
      · exact absurd hx htag
    rw [htag2]
    rw [if_pos (by simp)]
    simp


/-! ## Claim C10 -/

/-- Claim C10: when the winner node has no element children after
sibling extension, the cleaner returns none without any condition on
the node text, and the engine takes the whole-document fallback instead
of wrapping the winner, so a text-only winner never reaches the output
as the article body. -/
theorem C10_theorem (input : Option Elem) (fragment : Bool) (doc : Elem)
    (f2 : Forest) (wEid : Nat) (wtree : Elem)
    (hdoc : Article.doc input = some doc)
    (hne : doc.children.length ≠ 0)
    (hpost : postSiblings doc = some (f2, wEid))
    (hfind : forestFind f2 wEid = some wtree)
    (hz : wtree.children.length = 0) :
    prep_article wtree = none ∧
    Article.readable input fragment = noCandFallback f2 (find_candidates doc).2 fragment := by
  have hread := readable_eq_of_stages input fragment doc f2 wEid wtree hdoc hne hpost hfind
  have hnone : prep_article wtree = none := by
    unfold prep_article
    exact (clean_document_none_iff wtree).mpr hz
  refine ⟨hnone, ?_⟩
  rw [hread, hnone]

/-- Claim C10, witness: the C10 winner is childless but carries
nonempty prose text, the cleaner returns none, and the engine falls
back to the whole document. -/
theorem C10_witness :
    C10wtree.text = "Nice long prose here" ∧
    prep_article C10wtree = none ∧
    Article.readable (some C10doc) true =
      noCandFallback C10post.1 (find_candidates C10tdoc).2 true :=
  ⟨by rfl,
   (C10_theorem (some C10doc) true C10tdoc C10post.1 C10post.2 C10wtree (by rfl) (by decide)
      (by rfl) (by rfl) (by decide)).1,
   (C10_theorem (some C10doc) true C10tdoc C10post.1 C10post.2 C10wtree (by rfl) (by decide)
      (by rfl) (by rfl) (by decide)).2⟩

end Breadability
